import Mathlib

/-!
Verification of the TFT-Moonraker bridge (src/tft_moonraker_bridge.py).

The Python source is shallowly embedded: pure functions become Lean
functions over `String`/`List Char`, timestamps become rationals, JSON
values become an inductive type, and fallible calls (HTTP requests,
serial writes) become `Except`-valued oracles supplied as parameters.
The embedding models the ASCII fragment of Python text processing: the
regex classes are taken at their ASCII meaning
(Python additionally admits non-ASCII word characters in the class) and
`str.upper` is modelled by ASCII upcasing, which agrees with Python on
every string appearing in the bridge protocol.
-/

namespace TftBridge

/-! ## Python string primitives -/

/-- The whitespace characters recognized by Python `str.strip` and the
regex class, restricted to ASCII: space, tab, newline, carriage
return, vertical tab, form feed. -/
def pySpace (c : Char) : Bool :=
  c == ' ' || c == '\t' || c == '\n' || c == '\r' ||
    c == Char.ofNat 11 || c == Char.ofNat 12

/-- Python `str.strip()` on a character list: drop whitespace from both
ends. -/
def pyStrip (l : List Char) : List Char :=
  ((l.dropWhile pySpace).reverse.dropWhile pySpace).reverse

/-- Python `str.strip()` on a string. -/
def pyStripS (s : String) : String :=
  String.mk (pyStrip s.data)

/-- Python `str.upper()` (ASCII fragment), structurally on the
character list. -/
def pyUpperS (s : String) : String :=
  String.mk (s.data.map Char.toUpper)

/-- Python `s.startswith(pre)`, structurally on the character lists. -/
def pyStartsWith (s pre : String) : Bool :=
  pre.data.isPrefixOf s.data

/-! ## SecurityValidator (src/tft_moonraker_bridge.py lines 268-305) -/

/-- Substring test, Python `sub in s` on character lists. -/
def isSubList (needle : List Char) : List Char → Bool
  | [] => needle.isEmpty
  | c :: rest => needle.isPrefixOf (c :: rest) || isSubList needle rest

/-- `SecurityValidator.validate_filename`.  Rejects the empty name, any
name containing the two-character sequence `..` or a backslash or
starting with `/` (the separate `os.path.isabs` test on a POSIX host is
again the leading-slash test), and any name longer than 255
characters. -/
def validate_filename (filename : String) : Bool :=
  if filename == "" then false
  else if isSubList "..".data filename.data || pyStartsWith filename "/"
      || filename.data.contains '\\' then false
  else if pyStartsWith filename "/" then false
  else if 255 < filename.length then false
  else true

/-- ASCII fragment of the regex class `\w`: letters, digits,
underscore. -/
def pyWordChar (c : Char) : Bool :=
  c.isAlpha || c.isDigit || c == '_'

/-- The characters preserved by `sanitize_gcode`: the complement of the
regex class `[^\w\s\.\-\+\=\:]` that `re.sub` deletes. -/
def keepChar (c : Char) : Bool :=
  pyWordChar c || pySpace c || c == '.' || c == '-' || c == '+' ||
    c == '=' || c == ':'

/-- `SecurityValidator.sanitize_gcode`: empty in, empty out; otherwise
strip, delete every character outside the allow-list, and truncate to
1000 characters. -/
def sanitize_gcode (gcode : String) : String :=
  if gcode == "" then ""
  else
    let sanitized := (pyStrip gcode.data).filter keepChar
    if 1000 < sanitized.length then String.mk (sanitized.take 1000)
    else String.mk sanitized

/-- The allow-list exactly as the specification words it: letters,
digits, whitespace, and the five symbols; the underscore is absent. -/
def claimAllowed (c : Char) : Bool :=
  c.isAlpha || c.isDigit || pySpace c || c == '.' || c == '-' ||
    c == '+' || c == '=' || c == ':'

/-! ## RateLimiter (src/tft_moonraker_bridge.py lines 308-335)

Timestamps are modelled as rationals.  `acquire` returns the new deque
together with the duration slept.  The Python deque accesses
`requests[0]` only in the branch where the deque length reaches the
capacity, so with a positive capacity the deque is nonempty there; the
embedding uses `headD 0` for that access.  The `if self.requests`
guard before the post-wait `popleft` folds into `tail`, which is the
identity on the empty list. -/

/-- `RateLimiter.acquire`: evict stale entries from the front, wait
and evict once more when at capacity and the computed sleep is
positive, then append the timestamp `now` that was captured before any
wait. -/
def acquire (max_requests : Nat) (time_window now : ℚ) (requests : List ℚ) :
    List ℚ × ℚ :=
  let r1 := requests.dropWhile (fun t => decide (t < now - time_window))
  if max_requests ≤ r1.length then
    let sleep_time := time_window - (now - r1.headD 0)
    if 0 < sleep_time then (r1.tail ++ [now], sleep_time)
    else (r1 ++ [now], 0)
  else (r1 ++ [now], 0)

/-- The algorithm exactly as claim C6 words it: evict everything older
than `now - W`; if the window then holds `N` entries, compute the wait
until the oldest exits, suspend for it, evict that oldest entry, and
record the timestamp at which the entry is recorded, after any
wait. -/
def acquireClaim (max_requests : Nat) (time_window now : ℚ) (requests : List ℚ) :
    List ℚ × ℚ :=
  let r1 := requests.filter (fun t => decide (now - time_window ≤ t))
  if r1.length = max_requests then
    let wait := time_window - (now - r1.headD 0)
    let waited := if 0 < wait then wait else 0
    (r1.tail ++ [now + waited], waited)
  else (r1 ++ [now], 0)

/-- The claim amended to the code: the recorded timestamp is the one
observed when `acquire` began, before any wait, and the mid-call
eviction happens only when the computed wait is positive. -/
def acquireAmended (max_requests : Nat) (time_window now : ℚ) (requests : List ℚ) :
    List ℚ × ℚ :=
  let r1 := requests.filter (fun t => decide (now - time_window ≤ t))
  if r1.length = max_requests then
    let wait := time_window - (now - r1.headD 0)
    if 0 < wait then (r1.tail ++ [now], wait)
    else (r1 ++ [now], 0)
  else (r1 ++ [now], 0)

/-! ## TFTSerial.read_line (src/tft_moonraker_bridge.py lines 872-903) -/

/-- Python `str.split(sep)` for a one-character separator: always
returns at least one (possibly empty) piece. -/
def splitOnC (sep : Char) : List Char → List (List Char)
  | [] => [[]]
  | c :: rest =>
      let r := splitOnC sep rest
      if c = sep then [] :: r
      else
        match r with
        | [] => [[c]]
        | a :: as => (c :: a) :: as

/-- One `read_line` step, given the retained buffer and the freshly
read chunk: append the chunk, and if a newline is present keep only
the text after the last newline as the new buffer and return the first
line stripped, or nothing when the stripped first line is empty. -/
def read_line_step (buffer data : List Char) : Option (List Char) × List Char :=
  let buf := buffer ++ data
  if buf.contains '\n' then
    let lines := splitOnC '\n' buf
    let newBuf := lines.getLastD []
    let first := pyStrip (lines.headD [])
    (if first.isEmpty then none else some first, newBuf)
  else (none, buf)

/-! ## A small regex engine

`GCodeTranslator` matches its patterns with `re.match(pattern, gcode,
re.IGNORECASE)`: anchored at the start, a prefix match suffices, greedy
backtracking, case-insensitive.  The patterns of the bridge use only
literal characters, the classes `\d`, `\s`, `.` and explicit sets, the
quantifiers `+`, `*`, `?` on single-character items, and capturing
groups of such items; the engine below implements exactly that
fragment.  Candidate continuations are produced in greedy priority
order, so the head of the result list is the match Python finds. -/

/-- A single-character matcher. -/
inductive Atom where
  | digit : Atom
  | space : Atom
  | anyc : Atom
  | one (c : Char) : Atom
  | set (cs : List Char) : Atom
deriving Repr, DecidableEq

/-- Whether an atom matches one character (case-insensitively). -/
def atomMatch (a : Atom) (c : Char) : Bool :=
  match a with
  | .digit => c.isDigit
  | .space => pySpace c
  | .anyc => c != '\n'
  | .one d => c.toLower == d.toLower
  | .set cs => cs.any (fun d => d.toLower == c.toLower)

/-- A quantified atom: one occurrence, `*`, `+` or `?`. -/
inductive SRE where
  | atom (a : Atom) : SRE
  | star (a : Atom) : SRE
  | plus (a : Atom) : SRE
  | opt (a : Atom) : SRE
deriving Repr, DecidableEq

/-- A pattern element: a plain quantified atom or a capturing group of
a sequence of quantified atoms. -/
inductive RE where
  | simple (r : SRE) : RE
  | cap (g : List SRE) : RE
deriving Repr, DecidableEq

/-- All suffixes reachable by consuming a greedy run of `a`, longest
first, down to consuming nothing. -/
def greedySuffixes (a : Atom) (s : List Char) : List (List Char) :=
  let r := (s.takeWhile (atomMatch a)).length
  (List.range (r + 1)).map (fun i => s.drop (r - i))

/-- The suffixes a single quantified atom can leave, in backtracking
priority order. -/
def matchSRE (r : SRE) (s : List Char) : List (List Char) :=
  match r with
  | .atom a =>
      match s with
      | [] => []
      | c :: rest => if atomMatch a c then [rest] else []
  | .star a => greedySuffixes a s
  | .plus a => (greedySuffixes a s).dropLast
  | .opt a =>
      match s with
      | [] => [[]]
      | c :: rest => if atomMatch a c then [rest, c :: rest] else [c :: rest]

/-- The suffixes a sequence of quantified atoms can leave, in priority
order. -/
def matchSimpleSeq (rs : List SRE) (s : List Char) : List (List Char) :=
  match rs with
  | [] => [s]
  | r :: rest => (matchSRE r s).flatMap (fun t => matchSimpleSeq rest t)

/-- The suffix-and-captures pairs a full pattern can leave, in priority
order; a capturing group contributes the text it consumed. -/
def matchSeq (rs : List RE) (s : List Char) : List (List Char × List String) :=
  match rs with
  | [] => [(s, [])]
  | .simple r :: rest => (matchSRE r s).flatMap (fun t => matchSeq rest t)
  | .cap g :: rest =>
      (matchSimpleSeq g s).flatMap (fun t =>
        (matchSeq rest t).map (fun qr =>
          (qr.1, String.mk (s.take (s.length - t.length)) :: qr.2)))

/-- `re.match`: the first (greedy, leftmost) way the whole pattern
matches a prefix of the input, returning the captured groups. -/
def reMatch (p : List RE) (s : List Char) : Option (List String) :=
  (matchSeq p s).head?.map (fun pr => pr.2)

/-! ## GCodeTranslator (src/tft_moonraker_bridge.py lines 621-816) -/

/-- A translation value: either static replacement text or a function
of the captured groups (the Python dict holds strings and lambdas). -/
inductive TAction where
  | static (out : String) : TAction
  | transform (f : List String → String) : TAction

/-- Shorthand: a literal pattern fragment. -/
def lit (s : String) : List RE :=
  s.data.map (fun c => RE.simple (SRE.atom (Atom.one c)))

/-- Shorthand: the fragment for the regex `\s+`. -/
def spp : RE := RE.simple (SRE.plus Atom.space)

/-- Shorthand: the fragment for the regex `.*`. -/
def dotStar : RE := RE.simple (SRE.star Atom.anyc)

/-- Shorthand: the capturing group `(\d+)`. -/
def capDigits : RE := RE.cap [SRE.plus Atom.digit]

/-- Shorthand: the capturing group for a signed decimal,
`([+-]?\d*\.?\d+)`. -/
def capSigned : RE :=
  RE.cap [SRE.opt (Atom.set ['+', '-']), SRE.star Atom.digit,
    SRE.opt (Atom.one '.'), SRE.plus Atom.digit]

/-- The transform of the `M421` rule. -/
def m421Transform (caps : List String) : String :=
  "BED_MESH_CALIBRATE MESH_MIN=" ++ caps.getD 0 "" ++ "," ++
    caps.getD 1 "" ++ " MESH_MAX=" ++ caps.getD 0 "" ++ "," ++ caps.getD 1 ""

/-- The transform of the `M851` rule. -/
def m851Transform (caps : List String) : String :=
  "SET_GCODE_OFFSET Z=" ++ caps.getD 0 "" ++ " MOVE=1"

/-- `GCodeTranslator.translations`, in the insertion order of the
Python dict (iteration order for Python 3.7+). -/
def translations : List (List RE × TAction) :=
  [ (lit "M420" ++ [spp] ++ lit "S1", .static "BED_MESH_PROFILE LOAD=default"),
    (lit "M420" ++ [spp] ++ lit "S0", .static "BED_MESH_CLEAR"),
    (lit "G29", .static "BED_MESH_CALIBRATE"),
    (lit "M421" ++ [spp] ++ lit "I" ++ [capDigits, spp] ++ lit "J" ++
      [capDigits, spp] ++ lit "Z" ++ [capSigned], .transform m421Transform),
    (lit "M303" ++ [spp] ++ lit "E0" ++ [spp] ++ lit "C8" ++ [spp] ++ lit "U1",
      .static "PID_CALIBRATE HEATER=extruder"),
    (lit "M303" ++ [spp] ++ lit "E-1" ++ [spp] ++ lit "C8" ++ [spp] ++ lit "U1",
      .static "PID_CALIBRATE HEATER=heater_bed"),
    (lit "M280" ++ [spp] ++ lit "P0" ++ [spp] ++ lit "S10",
      .static "BLTOUCH_DEBUG COMMAND=pin_down"),
    (lit "M280" ++ [spp] ++ lit "P0" ++ [spp] ++ lit "S90",
      .static "BLTOUCH_DEBUG COMMAND=pin_up"),
    (lit "M280" ++ [spp] ++ lit "P0" ++ [spp] ++ lit "S160",
      .static "BLTOUCH_DEBUG COMMAND=reset"),
    (lit "M401", .static "PROBE_CALIBRATE"),
    (lit "M48", .static "PROBE_ACCURACY"),
    (lit "M701", .static "LOAD_FILAMENT"),
    (lit "M702", .static "UNLOAD_FILAMENT"),
    (lit "M500", .static "SAVE_CONFIG"),
    (lit "M503", .static "# Settings saved in printer.cfg"),
    (lit "M851" ++ [spp] ++ lit "Z" ++ [capSigned], .transform m851Transform) ]

/-- Apply a translation value to the captured groups. -/
def applyAction (a : TAction) (caps : List String) : String :=
  match a with
  | .static out => out
  | .transform f => f caps

/-- The rule scan of `translate_gcode`: the first pattern that matches
wins. -/
def findTranslation (ts : List (List RE × TAction)) (g : List Char) :
    Option String :=
  match ts with
  | [] => none
  | (p, act) :: rest =>
      match reMatch p g with
      | some caps => some (applyAction act caps)
      | none => findTranslation rest g

/-- The `passthrough_patterns` list of `translate_gcode`. -/
def passthrough_patterns : List (List RE) :=
  [ lit "G" ++ [RE.simple (SRE.atom (Atom.set ['0', '1'])), spp, dotStar],
    lit "G28" ++ [dotStar],
    lit "G9" ++ [RE.simple (SRE.atom (Atom.set ['0', '1']))],
    lit "G92" ++ [dotStar],
    lit "M10" ++ [RE.simple (SRE.atom (Atom.set ['4', '5', '6', '7', '8', '9'])),
      dotStar],
    lit "M11" ++ [RE.simple (SRE.atom (Atom.set ['4', '5'])), dotStar],
    lit "M1" ++ [RE.simple (SRE.atom (Atom.set ['8', '9']))] ++ lit "0" ++
      [dotStar],
    lit "M220" ++ [dotStar],
    lit "M221" ++ [dotStar],
    lit "M" ++ [RE.simple (SRE.atom (Atom.set ['2', '3'])),
      RE.simple (SRE.atom Atom.digit), dotStar] ]

/-- `GCodeTranslator.translate_gcode` as a function of the macro
registry contents.  Empty or blank input translates to nothing; `M701`
and `M702` get macro-aware handling; then the ordered rule scan; then
the passthrough scan returns the command unchanged; then the source
returns `None` for the `M115`/`M105` prefixes and for everything else.
(The two prefix branches are unreachable: a command whose upper-casing
starts with `M115` or `M105` already matched the passthrough grammar
`M11[45].*` or `M10[4-9].*`; they are kept to mirror the source.) -/
def translate_gcode (available_macros : List String) (gcode0 : String) :
    Option String :=
  if pyStripS gcode0 == "" then none
  else
    let gcode := pyStripS gcode0
    if pyUpperS gcode == "M701" then
      if available_macros.contains "LOAD_FILAMENT" then some "LOAD_FILAMENT"
      else some "TFT_LOAD_FILAMENT"
    else if pyUpperS gcode == "M702" then
      if available_macros.contains "UNLOAD_FILAMENT" then some "UNLOAD_FILAMENT"
      else some "TFT_UNLOAD_FILAMENT"
    else
      match findTranslation translations gcode.data with
      | some t => some t
      | none =>
          if passthrough_patterns.any (fun p => (reMatch p gcode.data).isSome)
          then some gcode
          else if pyStartsWith (pyUpperS gcode) "M115" then none
          else if pyStartsWith (pyUpperS gcode) "M105" then none
          else none

/-! ## Macro registry (src/tft_moonraker_bridge.py lines 662-697)

`check_available_macros` issues one upstream configuration query.  The
outcome of that query is an oracle parameter: `Except.error` models
the query raising, `Except.ok none` models a response without the
`result`/`status`/`configfile` shape, and `Except.ok (some keys)`
models a response whose `settings` object has the given keys.  The
mutex and double-check collapse to a single flag test in this
sequential model. -/

/-- Mutable translator state: the macro set (as a duplicate-free list)
and the load flag. -/
structure TranslatorState where
  available_macros : List String
  macros_checked : Bool
deriving Repr, DecidableEq

/-- The macro names harvested from the configuration keys: every key
starting with `gcode_macro ` contributes the key with that text
removed, upper-cased. -/
def extractMacros (keys : List String) : List String :=
  keys.filterMap (fun k =>
    if pyStartsWith k "gcode_macro " then
      some (pyUpperS (k.replace "gcode_macro " ""))
    else none)

/-- `GCodeTranslator.check_available_macros`: a no-op once the flag is
set; otherwise consume the query outcome, add any harvested macros to
the registry, and set the flag unconditionally (the `finally` block).
The second component reports whether an upstream query was issued. -/
def check_available_macros (query : Except String (Option (List String)))
    (st : TranslatorState) : TranslatorState × Bool :=
  if st.macros_checked then (st, false)
  else
    match query with
    | .error _ => (⟨st.available_macros, true⟩, true)
    | .ok none => (⟨st.available_macros, true⟩, true)
    | .ok (some keys) =>
        (⟨(extractMacros keys).foldl (fun s m => s.insert m)
            st.available_macros, true⟩, true)

/-- A sequence of `check_available_macros` calls with the given query
outcomes, counting how many upstream queries were issued. -/
def runChecks (queries : List (Except String (Option (List String))))
    (st : TranslatorState) : TranslatorState × Nat :=
  match queries with
  | [] => (st, 0)
  | q :: rest =>
      let (st1, issued) := check_available_macros q st
      let (st2, n) := runChecks rest st1
      (st2, (if issued then 1 else 0) + n)

/-! ## JSON values and the MoonrakerClient
(src/tft_moonraker_bridge.py lines 449-618)

Response dictionaries become an inductive JSON type.  The transport
(`_make_request` as seen by the domain operations) becomes an oracle
`mk : method → endpoint → body → Except String Json`; `Except.error e`
models the call raising an exception whose text is `e`. -/

/-- JSON-ish values: strings, booleans, rationals, objects. -/
inductive Json where
  | str (s : String) : Json
  | bool (b : Bool) : Json
  | num (q : ℚ) : Json
  | obj (kvs : List (String × Json)) : Json
deriving Repr

/-- Python `"error" in result`: true only for an object with the
key. -/
def jsonHasKey (k : String) (j : Json) : Bool :=
  match j with
  | .obj kvs => kvs.any (fun kv => kv.1 == k)
  | _ => false

/-- Python `result[k]` with a default for the model. -/
def jsonGetD (j : Json) (k : String) : Json :=
  match j with
  | .obj kvs =>
      match kvs.find? (fun kv => kv.1 == k) with
      | some kv => kv.2
      | none => .str ""
  | _ => .str ""

/-- Python `str()` of a JSON value, for f-string interpolation.  Only
the string case is exercised by the claims; the remaining cases are a
plain rendering. -/
def pyStr (j : Json) : String :=
  match j with
  | .str s => s
  | .bool b => if b then "True" else "False"
  | .num q => toString q
  | .obj _ => "object"

/-- The dictionary `{"error": str(e)}`. -/
def errDict (e : String) : Json :=
  .obj [("error", .str e)]

/-- The `try`/`except Exception as e: return {"error": str(e)}` wrapper
shared by every MoonrakerClient domain operation. -/
def catchToErrDict (r : Except String Json) : Json :=
  match r with
  | .ok d => d
  | .error e => errDict e

/-- The transport oracle type: method, endpoint, optional body. -/
abbrev MkOracle := String → String → Option Json → Except String Json

/-- `MoonrakerClient.send_gcode`: sanitize, reject the empty result,
short-circuit in test mode, otherwise POST and catch. -/
def send_gcode (test_mode : Bool) (mk : MkOracle) (gcode : String) : Json :=
  let sanitized := sanitize_gcode gcode
  if sanitized == "" then errDict "Invalid or empty G-code"
  else if test_mode then
    .obj [("result", .str "ok"), ("test_mode", .bool true)]
  else
    catchToErrDict
      (mk "POST" "/printer/gcode/script" (some (.obj [("script", .str sanitized)])))

/-- `MoonrakerClient.get_printer_status`: fake temperatures in test
mode, otherwise GET and catch. -/
def get_printer_status (test_mode : Bool) (mk : MkOracle) : Json :=
  if test_mode then
    .obj [("result", .obj [("status", .obj
      [("extruder", .obj [("temperature", .num 25), ("target", .num 0)]),
       ("heater_bed", .obj [("temperature", .num 24), ("target", .num 0)])])]),
      ("test_mode", .bool true)]
  else
    catchToErrDict
      (mk "GET" "/printer/objects/query?extruder&heater_bed&fan&toolhead&print_stats" none)

/-- `MoonrakerClient.get_printer_info`. -/
def get_printer_info (mk : MkOracle) : Json :=
  catchToErrDict (mk "GET" "/printer/info" none)

/-- `MoonrakerClient.start_print`: validate the filename first. -/
def start_print (mk : MkOracle) (filename : String) : Json :=
  if !validate_filename filename then
    errDict "Invalid filename - potential security risk"
  else
    catchToErrDict
      (mk "POST" "/printer/print/start" (some (.obj [("filename", .str filename)])))

/-- `MoonrakerClient.pause_print`. -/
def pause_print (mk : MkOracle) : Json :=
  catchToErrDict (mk "POST" "/printer/print/pause" none)

/-- `MoonrakerClient.resume_print`. -/
def resume_print (mk : MkOracle) : Json :=
  catchToErrDict (mk "POST" "/printer/print/resume" none)

/-- `MoonrakerClient.cancel_print`. -/
def cancel_print (mk : MkOracle) : Json :=
  catchToErrDict (mk "POST" "/printer/print/cancel" none)

/-! ## MoonrakerClient._make_request
(src/tft_moonraker_bridge.py lines 488-530)

Each loop iteration performs at most one HTTP attempt; the outcome of
attempt `i` is an oracle value.  A method other than GET or POST falls
through the `if`/`elif` without attempting anything and the loop moves
on.  The result pairs the request outcome (`Except.error` models the
exception propagating to the caller) with the number of HTTP attempts
performed.  The rate-limiter acquisition and `urljoin` that precede
the loop perform no HTTP traffic and do not affect the result. -/

/-- The outcome of one HTTP attempt: a parsed response, a transient
failure (`aiohttp.ClientError`/`asyncio.TimeoutError`), or an
unexpected exception. -/
inductive AttemptOutcome where
  | ok (d : Json) : AttemptOutcome
  | transient (e : String) : AttemptOutcome
  | fatal (e : String) : AttemptOutcome

/-- The dictionary returned when the retry loop exhausts. -/
def maxRetriesDict : Json :=
  .obj [("error", .str "Max retries exceeded")]

/-- The retry loop, counting down the remaining iterations while
tracking the attempt index and the attempts made so far. -/
def mrLoop (max_retries : Nat) (isGetOrPost : Bool)
    (att : Nat → AttemptOutcome) :
    Nat → Nat → Nat → Except String Json × Nat
  | 0, _, count => (.ok maxRetriesDict, count)
  | remaining + 1, i, count =>
      if isGetOrPost then
        match att i with
        | .ok d => (.ok d, count + 1)
        | .transient e =>
            if i + 1 < max_retries then
              mrLoop max_retries isGetOrPost att remaining (i + 1) (count + 1)
            else (.error e, count + 1)
        | .fatal e => (.error e, count + 1)
      else mrLoop max_retries isGetOrPost att remaining (i + 1) count

/-- `MoonrakerClient._make_request`: run up to `max_retries` attempts;
falling out of the loop yields `{"error": "Max retries exceeded"}`. -/
def make_request (max_retries : Nat) (method _endpoint : String)
    (att : Nat → AttemptOutcome) : Except String Json × Nat :=
  let isGetOrPost := pyUpperS method == "GET" || pyUpperS method == "POST"
  mrLoop max_retries isGetOrPost att max_retries 0 0

/-! ## TFTMoonrakerBridge.process_gcode
(src/tft_moonraker_bridge.py lines 940-1109)

The dispatch handler is modelled as a function from an environment of
oracles to the sequence of strings handed to `tft.write_line`, in
order.  Oracles: the outcome of `translate_gcode` (an exception or a
translation), the outcome of `moonraker.send_gcode` (an exception or a
response dictionary), the temperature line a successful `M105` status
query formats (the JSON-shape inspection and float formatting are
folded into this oracle, no claim depends on them; `Except.error`
models `get_printer_status` raising), and per-call outcomes of
`write_line` indexed by the call position (`Except.error` models the
write raising; the source write returns a Bool).  Every `try`/`except`
of the source is an explicit `match` on an oracle outcome. -/

/-- The oracle environment of one `process_gcode` invocation. -/
structure PgEnv where
  test_mode : Bool
  translateRes : Except String (Option String)
  sendRes : Except String Json
  m105Status : Except String String
  writeRes : Nat → Except String Bool

/-- Write-attempt state: the index of the next `write_line` call and
the log of the strings handed to it so far. -/
structure WLog where
  next : Nat
  written : List String
deriving Repr, DecidableEq

/-- Attempt one `write_line` call: log the string, consume one oracle
outcome. -/
def doWrite (env : PgEnv) (st : WLog) (s : String) : WLog × Except String Bool :=
  (⟨st.next + 1, st.written ++ [s]⟩, env.writeRes st.next)

/-- The `M115` identification line, with the bridge version 2.3.4
interpolated. -/
def m115Line : String :=
  "FIRMWARE_NAME:Klipper FIRMWARE_VERSION:v0.11.0 PROTOCOL_VERSION:1.0 MACHINE_TYPE:TFT_Bridge BRIDGE_VERSION:2.3.4"

/-- The zero-valued fallback temperature line of `handle_m105`. -/
def m105Fallback : String :=
  "ok T:0.0 /0.0 B:0.0 /0.0"

/-- `TFTMoonrakerBridge.handle_m115`: write the identification line
then `ok`; its own `except` swallows a failure of either write, so the
handler never raises. -/
def handle_m115 (env : PgEnv) (st : WLog) : WLog :=
  match doWrite env st m115Line with
  | (st1, .error _) => st1
  | (st1, .ok _) => (doWrite env st1 "ok").1

/-- `TFTMoonrakerBridge.handle_m105`: on a successful status query
write the formatted line; if that write raises, the handler's `except`
writes the fallback line; if the query raised, the `except` writes the
fallback line directly.  A failure of the fallback write itself
escapes the handler. -/
def handle_m105 (env : PgEnv) (st : WLog) : WLog × Option String :=
  match env.m105Status with
  | .ok line =>
      match doWrite env st line with
      | (st1, .ok _) => (st1, none)
      | (st1, .error _) =>
          match doWrite env st1 m105Fallback with
          | (st2, .ok _) => (st2, none)
          | (st2, .error e) => (st2, some e)
  | .error _ =>
      match doWrite env st m105Fallback with
      | (st1, .ok _) => (st1, none)
      | (st1, .error e) => (st1, some e)

/-- The body of `process_gcode` after the empty-line test, for a
stripped nonempty command `g`: the write log it accumulates and the
exception, if any, that reaches the top-level handler. -/
def process_inner (env : PgEnv) (g : String) : WLog × Option String :=
  let st0 : WLog := ⟨0, []⟩
  if pyStartsWith (pyUpperS g) "M115" then (handle_m115 env st0, none)
  else if pyStartsWith (pyUpperS g) "M105" then handle_m105 env st0
  else
    match env.translateRes with
    | .error e => (st0, some e)
    | .ok (some _) =>
        let attempt : WLog × Option String :=
          match env.sendRes with
          | .error e => (st0, some e)
          | .ok result =>
              let msg :=
                if jsonHasKey "error" result then
                  "!! " ++ pyStr (jsonGetD result "error")
                else "ok"
              match doWrite env st0 msg with
              | (st1, .ok _) => (st1, none)
              | (st1, .error e) => (st1, some e)
        match attempt with
        | (st1, none) => (st1, none)
        | (st1, some _) =>
            match doWrite env st1 "ok" with
            | (st2, .ok _) => (st2, none)
            | (st2, .error e) => (st2, some e)
    | .ok none =>
        match doWrite env st0 "ok" with
        | (st1, .ok _) => (st1, none)
        | (st1, .error e) => (st1, some e)

/-- `TFTMoonrakerBridge.process_gcode`: strip the line, ignore it when
empty, run the body, and on any exception reaching the top-level
handler attempt one final `ok` write whose own failure is swallowed by
the inner bare `except: pass`.  The result is the full sequence of
strings handed to `write_line`; the function total in the oracle
environment is exactly the never-propagates guarantee. -/
def process_gcode (env : PgEnv) (gcode0 : String) : List String :=
  let g := pyStripS gcode0
  if g == "" then []
  else
    match process_inner env g with
    | (st, none) => st.written
    | (st, some _) => ((doWrite env st "ok").1).written

/-! ## Theorems -/

/-- C10: with `max_retries = 0` the retry loop body never runs, so
`_make_request` performs no HTTP attempt and returns the dictionary
`{"error": "Max retries exceeded"}` normally instead of raising, for
every method, endpoint and attempt behaviour. -/
theorem make_request_zero_retries (method endpoint : String)
    (att : Nat → AttemptOutcome) :
    make_request 0 method endpoint att = (Except.ok maxRetriesDict, 0) := rfl

/-- C9: every MoonrakerClient domain operation catches internal
failures; when the transport raises on every call, each of the seven
operations still returns normally, with a dictionary carrying the
`error` key, and a normally returned exhausted-retries dictionary also
carries the `error` key. -/
theorem moonraker_ops_error_key (mk : MkOracle) (g fn : String)
    (hfail : ∀ m ep d, ∃ e, mk m ep d = Except.error e) :
    jsonHasKey "error" (send_gcode false mk g) = true ∧
    jsonHasKey "error" (get_printer_status false mk) = true ∧
    jsonHasKey "error" (get_printer_info mk) = true ∧
    jsonHasKey "error" (start_print mk fn) = true ∧
    jsonHasKey "error" (pause_print mk) = true ∧
    jsonHasKey "error" (resume_print mk) = true ∧
    jsonHasKey "error" (cancel_print mk) = true ∧
    jsonHasKey "error"
      (get_printer_info (fun _ _ _ => Except.ok maxRetriesDict)) = true := by
  refine ⟨?_, ?_, ?_, ?_, ?_, ?_, ?_, ?_⟩
  · unfold send_gcode
    by_cases h : sanitize_gcode g == ""
    · simp [h, errDict, jsonHasKey]
    · obtain ⟨e, he⟩ := hfail "POST" "/printer/gcode/script"
        (some (.obj [("script", .str (sanitize_gcode g))]))
      simp [h, he, catchToErrDict, errDict, jsonHasKey]
  · obtain ⟨e, he⟩ := hfail "GET"
      "/printer/objects/query?extruder&heater_bed&fan&toolhead&print_stats" none
    simp [get_printer_status, he, catchToErrDict, errDict, jsonHasKey]
  · obtain ⟨e, he⟩ := hfail "GET" "/printer/info" none
    simp [get_printer_info, he, catchToErrDict, errDict, jsonHasKey]
  · unfold start_print
    by_cases h : validate_filename fn
    · obtain ⟨e, he⟩ := hfail "POST" "/printer/print/start"
        (some (.obj [("filename", .str fn)]))
      simp [h, he, catchToErrDict, errDict, jsonHasKey]
    · simp [h, errDict, jsonHasKey]
  · obtain ⟨e, he⟩ := hfail "POST" "/printer/print/pause" none
    simp [pause_print, he, catchToErrDict, errDict, jsonHasKey]
  · obtain ⟨e, he⟩ := hfail "POST" "/printer/print/resume" none
    simp [resume_print, he, catchToErrDict, errDict, jsonHasKey]
  · obtain ⟨e, he⟩ := hfail "POST" "/printer/print/cancel" none
    simp [cancel_print, he, catchToErrDict, errDict, jsonHasKey]
  · simp [get_printer_info, catchToErrDict, maxRetriesDict, jsonHasKey]

/-- C9 witness: a concrete always-raising transport. -/
theorem moonraker_ops_error_key_witness :
    (∀ m ep d, ∃ e,
        (fun (_ : String) (_ : String) (_ : Option Json) =>
          (Except.error "boom" : Except String Json)) m ep d
          = Except.error e) ∧
    jsonHasKey "error"
      (get_printer_info (fun _ _ _ => Except.error "boom")) = true := by
  refine ⟨fun m ep d => ⟨"boom", rfl⟩, ?_⟩
  exact (moonraker_ops_error_key (fun _ _ _ => Except.error "boom") "G28"
    "job.gcode" (fun m ep d => ⟨"boom", rfl⟩)).2.2.1

/-- C7: once loaded the macro registry is never queried again: a call
with the flag set is an identity issuing no query; every call sets the
flag; a raising query leaves the registry contents untouched (so an
initially empty registry stays empty); and any sequence of calls
issues no query from a loaded state and at most one query overall. -/
theorem macro_registry_single_load :
    (∀ st q, st.macros_checked = true →
      check_available_macros q st = (st, false)) ∧
    (∀ st q, (check_available_macros q st).1.macros_checked = true) ∧
    (∀ st e, (check_available_macros (Except.error e) st).1.available_macros
      = st.available_macros) ∧
    (∀ qs st, st.macros_checked = true → (runChecks qs st).2 = 0) ∧
    (∀ qs st, (runChecks qs st).2 ≤ 1) := by
  have h1 : ∀ st q, st.macros_checked = true →
      check_available_macros q st = (st, false) := by
    intro st q h
    simp [check_available_macros, h]
  have h2 : ∀ st q, (check_available_macros q st).1.macros_checked = true := by
    intro st q
    by_cases h : st.macros_checked
    · simp [check_available_macros, h]
    · simp only [check_available_macros, h, if_neg]
      cases q with
      | error e => simp
      | ok o => cases o <;> simp
  have h4 : ∀ qs st, st.macros_checked = true → (runChecks qs st).2 = 0 := by
    intro qs
    induction qs with
    | nil => intro st h; rfl
    | cons q rest ih =>
        intro st h
        simp [runChecks, h1 st q h, ih st h]
  have h5 : ∀ qs st, (runChecks qs st).2 ≤ 1 := by
    intro qs st
    cases qs with
    | nil => simp [runChecks]
    | cons q rest =>
        by_cases h : st.macros_checked
        · simp [h4 _ _ h]
        · have hc : (check_available_macros q st).1.macros_checked = true :=
            h2 st q
          simp only [runChecks]
          have : (runChecks rest (check_available_macros q st).1).2 = 0 :=
            h4 rest _ hc
          rcases hi : (check_available_macros q st) with ⟨st1, issued⟩
          rw [hi] at this hc
          simp only [this]
          cases issued <;> simp
  refine ⟨h1, h2, ?_, h4, h5⟩
  intro st e
  by_cases h : st.macros_checked
  · simp [check_available_macros, h]
  · simp [check_available_macros, h]

/-- C7 witness: a raising first query loads an empty registry, sets
the flag, and a subsequent successful query is never issued. -/
theorem macro_registry_single_load_witness :
    (TranslatorState.mk [] true).macros_checked = true ∧
    check_available_macros (Except.ok (some ["gcode_macro pause"]))
      (TranslatorState.mk [] true) = (TranslatorState.mk [] true, false) := by
  refine ⟨rfl, ?_⟩
  exact macro_registry_single_load.1 (TranslatorState.mk [] true)
    (Except.ok (some ["gcode_macro pause"])) rfl

/-- The rule scan returns the action of the first matching pattern,
applied to its captures. -/
theorem findTranslation_eq_find (ts : List (List RE × TAction)) (g : List Char) :
    findTranslation ts g =
      (ts.find? (fun r => (reMatch r.1 g).isSome)).map
        (fun r => applyAction r.2 ((reMatch r.1 g).getD [])) := by
  induction ts with
  | nil => rfl
  | cons hd t ih =>
      obtain ⟨p, act⟩ := hd
      by_cases hm : (reMatch p g).isSome
      · obtain ⟨caps, hc⟩ := Option.isSome_iff_exists.mp hm
        rw [List.find?_cons_of_pos _ (by simpa using hm)]
        simp [findTranslation, hc]
      · rw [List.find?_cons_of_neg _ (by simpa using hm)]
        rw [Option.not_isSome_iff_eq_none] at hm
        simp [findTranslation, hm, ih]

/-- C8: translation scans the rule list in order and the first
matching pattern wins, yielding the static text or the transform of
the captures; in particular the two pinned translations hold for every
macro-registry state. -/
theorem translate_first_match_wins (macros : List String) :
    translate_gcode macros "M420 S1" = some "BED_MESH_PROFILE LOAD=default" ∧
    translate_gcode macros "M421 I10 J5 Z0.1"
      = some "BED_MESH_CALIBRATE MESH_MIN=10,5 MESH_MAX=10,5" ∧
    (∀ ts g, findTranslation ts g =
      (ts.find? (fun r => (reMatch r.1 g).isSome)).map
        (fun r => applyAction r.2 ((reMatch r.1 g).getD []))) :=
  ⟨rfl, rfl, findTranslation_eq_find⟩

/-- A prefix test succeeds on the list extended by anything. -/
theorem isPrefixOf_append_self (a suf : List Char) :
    a.isPrefixOf (a ++ suf) = true := by
  induction a with
  | nil => simp
  | cons c t ih => simpa [List.isPrefixOf_cons₂] using ih

/-- A successful prefix test implies a successful substring test. -/
theorem isSubList_of_isPrefixOf (a l : List Char)
    (h : a.isPrefixOf l = true) : isSubList a l = true := by
  cases l with
  | nil =>
      cases a with
      | nil => rfl
      | cons c t => simp [List.isPrefixOf] at h
  | cons c t => simp [isSubList, h]

/-- A list occurring contiguously inside another passes the substring
test. -/
theorem isSubList_parts (pre a suf : List Char) :
    isSubList a (pre ++ a ++ suf) = true := by
  induction pre with
  | nil =>
      exact isSubList_of_isPrefixOf a (a ++ suf) (isPrefixOf_append_self a suf)
  | cons c t ih =>
      cases ht : t ++ a ++ suf with
      | nil =>
          rcases List.append_eq_nil.mp (List.append_eq_nil.mp ht).1 with ⟨-, ha⟩
          subst ha
          simp [isSubList]
      | cons d u =>
          have : isSubList a (d :: u) = true := ht ▸ ih
          simpa [isSubList, ht] using Or.inr this

/-- The head piece of a split is a prefix of the list. -/
theorem splitOnC_head_prefix (sep : Char) (l : List Char) :
    ∃ suf, l = (splitOnC sep l).headD [] ++ suf := by
  induction l with
  | nil => exact ⟨[], rfl⟩
  | cons c rest ih =>
      by_cases h : c = sep
      · exact ⟨c :: rest, by simp [splitOnC, h]⟩
      · obtain ⟨suf, hs⟩ := ih
        cases hr : splitOnC sep rest with
        | nil => exact ⟨rest, by simp [splitOnC, h, hr]⟩
        | cons a as =>
            refine ⟨suf, ?_⟩
            rw [hr] at hs
            simp only [List.headD_cons] at hs
            rw [show splitOnC sep (c :: rest) = (c :: a) :: as by
              simp [splitOnC, h, hr]]
            simp [hs]

/-- Every piece of a split occurs contiguously inside the list. -/
theorem splitOnC_mem_parts (sep : Char) (l : List Char) (a : List Char)
    (ha : a ∈ splitOnC sep l) : ∃ pre suf, l = pre ++ a ++ suf := by
  induction l generalizing a with
  | nil =>
      simp [splitOnC] at ha
      exact ⟨[], [], by simp [ha]⟩
  | cons c rest ih =>
      by_cases h : c = sep
      · simp only [splitOnC, if_pos h] at ha
        rcases List.mem_cons.mp ha with ha | ha
        · exact ⟨[], c :: rest, by simp [ha]⟩
        · obtain ⟨pre, suf, hps⟩ := ih a ha
          exact ⟨c :: pre, suf, by simp [hps]⟩
      · cases hr : splitOnC sep rest with
        | nil =>
            simp only [splitOnC, if_neg h, hr] at ha
            rcases List.mem_singleton.mp ha with ha
            exact ⟨[], rest, by simp [ha]⟩
        | cons b bs =>
            simp only [splitOnC, if_neg h, hr] at ha
            rcases List.mem_cons.mp ha with ha | ha
            · obtain ⟨suf, hs⟩ := splitOnC_head_prefix sep rest
              rw [hr] at hs
              simp only [List.headD_cons] at hs
              exact ⟨[], suf, by simp [ha, hs]⟩
            · have hmem : a ∈ splitOnC sep rest := by
                rw [hr]; exact List.mem_cons_of_mem _ ha
              obtain ⟨pre, suf, hps⟩ := ih a hmem
              exact ⟨c :: pre, suf, by simp [hps]⟩

/-- C3: `validate_filename` rejects the empty name, every name with a
parent-directory segment (a `..` piece of the slash-split), every
absolute path, every name containing the foreign (backslash) path
separator, and every name longer than 255 characters; the three pinned
examples behave as claimed. -/
theorem validate_filename_spec :
    validate_filename "" = false ∧
    (∀ s : String, "..".data ∈ splitOnC '/' s.data →
      validate_filename s = false) ∧
    (∀ s : String, pyStartsWith s "/" = true → validate_filename s = false) ∧
    (∀ s : String, s.data.contains '\\' = true → validate_filename s = false) ∧
    (∀ s : String, 255 < s.length → validate_filename s = false) ∧
    validate_filename "../../etc/passwd" = false ∧
    validate_filename "/abs/path.gcode" = false ∧
    validate_filename "job.gcode" = true := by
  refine ⟨by decide, ?_, ?_, ?_, ?_, by decide, by decide, by decide⟩
  · intro s hs
    obtain ⟨pre, suf, hps⟩ := splitOnC_mem_parts '/' s.data "..".data hs
    have hsub : isSubList "..".data s.data = true := by
      rw [hps]; exact isSubList_parts pre "..".data suf
    unfold validate_filename
    split_ifs with h1 h2 h3 h4 <;> first | rfl | (exact absurd hsub (by simp_all))
  · intro s hs
    unfold validate_filename
    split_ifs with h1 h2 h3 h4 <;> first | rfl | (exact absurd hs (by simp_all))
  · intro s hs
    unfold validate_filename
    split_ifs with h1 h2 h3 h4 <;> first | rfl | (exact absurd hs (by simp_all))
  · intro s hs
    unfold validate_filename
    split_ifs with h1 h2 h3 h4 <;> first | rfl | (exact absurd hs (by omega))

/-- C3 witness: the path-traversal example contains a `..` segment and
is rejected. -/
theorem validate_filename_spec_witness :
    ("..".data ∈ splitOnC '/' ("../../etc/passwd".data)) ∧
    validate_filename "../../etc/passwd" = false := by
  refine ⟨by decide, ?_⟩
  exact validate_filename_spec.2.1 "../../etc/passwd" (by decide)

/-- Unfolding the constructor of `String`. -/
theorem data_mk (l : List Char) : (String.mk l).data = l := rfl

/-- The length of a constructed string is its character count. -/
theorem length_mk (l : List Char) : (String.mk l).length = l.length := rfl

/-- Stripping keeps only characters of the original list. -/
theorem mem_pyStrip {c : Char} {l : List Char} (h : c ∈ pyStrip l) : c ∈ l := by
  unfold pyStrip at h
  rw [List.mem_reverse] at h
  have h1 := (List.dropWhile_sublist pySpace).subset h
  rw [List.mem_reverse] at h1
  exact (List.dropWhile_sublist pySpace).subset h1

/-- Stripping does not lengthen a list. -/
theorem pyStrip_length_le (l : List Char) : (pyStrip l).length ≤ l.length := by
  unfold pyStrip
  rw [List.length_reverse]
  refine le_trans (List.Sublist.length_le (List.dropWhile_sublist pySpace)) ?_
  rw [List.length_reverse]
  exact List.Sublist.length_le (List.dropWhile_sublist pySpace)

/-- The shape of `sanitize_gcode` on nonempty input. -/
theorem sanitize_gcode_eq (g : String) (hg : (g == "") = false) :
    sanitize_gcode g =
      (if 1000 < ((pyStrip g.data).filter keepChar).length
       then String.mk (((pyStrip g.data).filter keepChar).take 1000)
       else String.mk ((pyStrip g.data).filter keepChar)) := by
  unfold sanitize_gcode
  rw [if_neg (by simp_all)]

/-- Every character of a sanitized command survives the character
filter. -/
theorem sanitize_data_mem (g : String) :
    ∀ c ∈ (sanitize_gcode g).data, keepChar c = true := by
  intro c hc
  by_cases hg : (g == "") = true
  · rw [show g = "" from by simpa using hg] at hc
    simp [sanitize_gcode] at hc
  · rw [sanitize_gcode_eq g (by simpa using hg)] at hc
    by_cases hl : 1000 < ((pyStrip g.data).filter keepChar).length
    · rw [if_pos hl] at hc
      rw [data_mk] at hc
      exact List.of_mem_filter (List.take_subset 1000 _ hc)
    · rw [if_neg hl] at hc
      rw [data_mk] at hc
      exact List.of_mem_filter hc

/-- A sanitized command never exceeds 1000 characters. -/
theorem sanitize_length_le (g : String) : (sanitize_gcode g).length ≤ 1000 := by
  by_cases hg : (g == "") = true
  · rw [show g = "" from by simpa using hg]
    decide
  · rw [sanitize_gcode_eq g (by simpa using hg)]
    by_cases hl : 1000 < ((pyStrip g.data).filter keepChar).length
    · rw [if_pos hl, length_mk, List.length_take]
      omega
    · rw [if_neg hl, length_mk]
      omega

/-- The kept characters are exactly the claimed allow-list plus the
underscore. -/
theorem keepChar_eq_claim (c : Char) :
    keepChar c = (claimAllowed c || c == '_') := by
  unfold keepChar pyWordChar claimAllowed
  cases c.isAlpha <;> cases c.isDigit <;> cases pySpace c <;>
    cases h : (c == '_') <;> simp [h]

/-- C4 counterexample: the underscore, outside the claimed allow-list,
survives sanitization, so the output is not confined to the claimed
allow-list. -/
theorem sanitize_allowlist_counterexample :
    ¬ ∀ c ∈ (sanitize_gcode "_").data, claimAllowed c = true := by decide

/-- C4 amended: with the underscore added to the allow-list, every
output character is allowed, output length is at most 1000, and empty
input yields empty output. -/
theorem sanitize_allowlist_underscore (g : String) :
    (∀ c ∈ (sanitize_gcode g).data, (claimAllowed c || c == '_') = true) ∧
    (sanitize_gcode g).length ≤ 1000 ∧ sanitize_gcode "" = "" := by
  refine ⟨fun c hc => ?_, sanitize_length_le g, rfl⟩
  rw [← keepChar_eq_claim]
  exact sanitize_data_mem g c hc

/-- C4 amended witness: applied to a concrete command containing an
underscore. -/
theorem sanitize_allowlist_underscore_witness :
    ('_' ∈ (sanitize_gcode "a_b!").data) ∧
    ((claimAllowed '_' || '_' == '_') = true) := by
  refine ⟨by decide, ?_⟩
  exact (sanitize_allowlist_underscore "a_b!").1 '_' (by decide)

/-- Dropping a matching prefix twice is dropping it once. -/
theorem dropWhile_dropWhile (p : Char → Bool) (l : List Char) :
    (l.dropWhile p).dropWhile p = l.dropWhile p := by
  induction l with
  | nil => rfl
  | cons x t ih =>
      by_cases h : p x
      · rw [List.dropWhile_cons_of_pos h, ih]
      · rw [List.dropWhile_cons_of_neg h, List.dropWhile_cons_of_neg h]

/-- A list whose head fails the predicate is unchanged by
`dropWhile`. -/
theorem dropWhile_eq_self_of_head (p : Char → Bool) (l : List Char)
    (h : ∀ x, l.head? = some x → p x = false) : l.dropWhile p = l := by
  cases l with
  | nil => rfl
  | cons x t =>
      exact List.dropWhile_cons_of_neg (by simp [h x rfl])

/-- Stripping an already stripped list changes nothing. -/
theorem pyStrip_idem (l : List Char) : pyStrip (pyStrip l) = pyStrip l := by
  have key : ∀ m : List Char,
      (((m.dropWhile pySpace).reverse.dropWhile pySpace).reverse).dropWhile
        pySpace = ((m.dropWhile pySpace).reverse.dropWhile pySpace).reverse := by
    intro m
    apply dropWhile_eq_self_of_head
    intro x hx
    rw [List.head?_reverse] at hx
    rcases hB : ((m.dropWhile pySpace).reverse.dropWhile pySpace) with _ | ⟨b, bs⟩
    · rw [hB] at hx; simp at hx
    · obtain ⟨u, hu⟩ := (List.dropWhile_suffix (l := (m.dropWhile pySpace).reverse)
        pySpace)
      rw [hB] at hu hx
      have hlast : (u ++ b :: bs).getLast? = (b :: bs).getLast? := by
        rw [List.getLast?_append]
        cases hgl : (b :: bs).getLast? with
        | none => simp [List.getLast?_eq_none_iff] at hgl
        | some y => simp
      rw [hu] at hlast
      rw [List.getLast?_reverse] at hlast
      rw [← hlast] at hx
      have hnot := List.head?_dropWhile_not pySpace m
      rw [hx] at hnot
      exact hnot
  unfold pyStrip
  rw [key l, List.reverse_reverse, dropWhile_dropWhile]

/-- C5 counterexample: sanitization is not idempotent; deleting a
disallowed character can expose trailing whitespace that only the next
application strips. -/
theorem sanitize_not_idempotent :
    sanitize_gcode (sanitize_gcode "a !") ≠ sanitize_gcode "a !" := by decide

/-- Sanitizing a string that is already filtered and short only strips
it. -/
theorem sanitize_of_clean (y : String)
    (hmem : ∀ c ∈ y.data, keepChar c = true) (hlen : y.length ≤ 1000) :
    sanitize_gcode y = pyStripS y := by
  by_cases hy : (y == "") = true
  · rw [show y = "" from by simpa using hy]
    rfl
  · rw [sanitize_gcode_eq y (by simpa using hy)]
    have hfil : (pyStrip y.data).filter keepChar = pyStrip y.data :=
      List.filter_eq_self.mpr (fun c hc => hmem c (mem_pyStrip hc))
    rw [hfil]
    rw [if_neg (by
      have := pyStrip_length_le y.data
      have hyl : y.data.length ≤ 1000 := hlen
      omega)]
    rfl

/-- C5 amended: a second sanitization only strips the first result (so
idempotence fails exactly when the output has outer whitespace), the
output length is at most 1000, and sanitization is idempotent from the
second application on. -/
theorem sanitize_second_strip (x : String) :
    sanitize_gcode (sanitize_gcode x) = pyStripS (sanitize_gcode x) ∧
    (sanitize_gcode x).length ≤ 1000 ∧
    sanitize_gcode (sanitize_gcode (sanitize_gcode x))
      = sanitize_gcode (sanitize_gcode x) := by
  have hclean : sanitize_gcode (sanitize_gcode x) = pyStripS (sanitize_gcode x) :=
    sanitize_of_clean _ (sanitize_data_mem x) (sanitize_length_le x)
  refine ⟨hclean, sanitize_length_le x, ?_⟩
  have hmem2 : ∀ c ∈ (sanitize_gcode (sanitize_gcode x)).data,
      keepChar c = true := sanitize_data_mem _
  have hlen2 : (sanitize_gcode (sanitize_gcode x)).length ≤ 1000 :=
    sanitize_length_le _
  rw [sanitize_of_clean _ hmem2 hlen2, hclean]
  show String.mk (pyStrip (String.mk (pyStrip (sanitize_gcode x).data)).data)
    = String.mk (pyStrip (sanitize_gcode x).data)
  rw [data_mk, pyStrip_idem]

/-- Splitting a list free of the separator yields the list itself. -/
theorem splitOnC_of_not_mem (sep : Char) (l : List Char) (h : sep ∉ l) :
    splitOnC sep l = [l] := by
  induction l with
  | nil => rfl
  | cons c rest ih =>
      have hc : ¬ c = sep := by
        rintro rfl
        exact h (List.mem_cons_self _ _)
      have hr : sep ∉ rest := fun hm => h (List.mem_cons_of_mem _ hm)
      simp [splitOnC, hc, ih hr]

/-- A list containing exactly one separator splits into the text
before and after it. -/
theorem splitOnC_single (sep : Char) (l : List Char) (h : l.count sep = 1) :
    ∃ a b, l = a ++ sep :: b ∧ sep ∉ a ∧ sep ∉ b ∧
      splitOnC sep l = [a, b] := by
  induction l with
  | nil => simp at h
  | cons c rest ih =>
      by_cases hc : c = sep
      · subst hc
        rw [List.count_cons_self] at h
        have hnm : c ∉ rest := List.count_eq_zero.mp (by omega)
        exact ⟨[], rest, by simp, by simp, hnm,
          by simp [splitOnC, splitOnC_of_not_mem _ _ hnm]⟩
      · have hss : sep ≠ c := fun he => hc he.symm
        rw [List.count_cons_of_ne hss] at h
        obtain ⟨a, b, hab, ha, hb, hsplit⟩ := ih h
        refine ⟨c :: a, b, by simp [hab], ?_, hb, ?_⟩
        · intro hm
          rcases List.mem_cons.mp hm with hm | hm
          · exact hss hm
          · exact ha hm
        · simp [splitOnC, hc, hsplit]

/-- C2 counterexample: a chunk holding two complete lines; the first
line is returned, but the bytes of the second line are dropped rather
than retained in the buffer. -/
theorem read_line_retention_counterexample :
    (read_line_step [] ("G28\nG1 X10\n".data)).1 = some ("G28".data) ∧
    (read_line_step [] ("G28\nG1 X10\n".data)).2 ≠ ("G1 X10\n".data) ∧
    (read_line_step [] ("G28\nG1 X10\n".data)).2 = [] := by decide

/-- C2 amended: when the accumulated buffer holds exactly one newline,
the first complete line is returned trimmed (or swallowed when blank)
and the text after the newline is retained, with no byte lost; the
pinned two-chunk example behaves as claimed. -/
theorem read_line_single_newline_frame (buffer data : List Char)
    (h : (buffer ++ data).count '\n' = 1) :
    (∃ a, buffer ++ data = a ++ '\n' :: (read_line_step buffer data).2 ∧
      (read_line_step buffer data).1
        = (if pyStrip a = [] then none else some (pyStrip a))) ∧
    read_line_step [] ("G28\nG1 X".data) = (some ("G28".data), "G1 X".data) ∧
    read_line_step ("G1 X".data) ("10\n".data) = (some ("G1 X10".data), []) := by
  refine ⟨?_, by decide, by decide⟩
  obtain ⟨a, b, hab, ha, hb, hsplit⟩ := splitOnC_single '\n' (buffer ++ data) h
  have hmem : '\n' ∈ buffer ++ data := by
    rw [hab]; simp
  have hcontains : (buffer ++ data).contains '\n' = true :=
    List.elem_eq_true_of_mem hmem
  have hres : read_line_step buffer data
      = (if (pyStrip a).isEmpty then none else some (pyStrip a), b) := by
    unfold read_line_step
    simp only [hcontains, if_true, hsplit]
    simp [List.getLastD]
  refine ⟨a, ?_, ?_⟩
  · rw [hres, hab]
  · rw [hres]
    by_cases he : pyStrip a = []
    · simp [he]
    · simp [he, List.isEmpty_iff]

/-- C2 amended witness: the first chunk of the pinned example holds
one newline. -/
theorem read_line_single_newline_frame_witness :
    (([] ++ "G28\nG1 X".data).count '\n' = 1) ∧
    (∃ a, [] ++ "G28\nG1 X".data
        = a ++ '\n' :: (read_line_step [] ("G28\nG1 X".data)).2 ∧
      (read_line_step [] ("G28\nG1 X".data)).1
        = (if pyStrip a = [] then none else some (pyStrip a))) := by
  refine ⟨by decide, ?_⟩
  exact (read_line_single_newline_frame [] ("G28\nG1 X".data) (by decide)).1

/-- On a sorted list, dropping the stale front prefix equals filtering
for fresh entries. -/
theorem sorted_dropWhile_eq_filter (c : ℚ) (l : List ℚ)
    (h : l.Sorted (· ≤ ·)) :
    l.dropWhile (fun t => decide (t < c))
      = l.filter (fun t => decide (c ≤ t)) := by
  induction l with
  | nil => rfl
  | cons x t ih =>
      rw [List.sorted_cons] at h
      by_cases hx : x < c
      · rw [List.dropWhile_cons_of_pos (by simpa using hx),
          List.filter_cons_of_neg (by simpa using not_le.mpr hx)]
        exact ih h.2
      · push_neg at hx
        rw [List.dropWhile_cons_of_neg (by simpa using not_lt.mpr hx),
          List.filter_cons_of_pos (by simpa using hx)]
        have hall : ∀ y ∈ t, (fun t => decide (c ≤ t)) y = true := fun y hy => by
          simpa using le_trans hx (h.1 y hy)
        rw [List.filter_eq_self.mpr hall]

/-- C6 counterexample: the claimed algorithm differs from the code in
two reachable states.  With capacity 1, window 2, a window `[0]` and
`now = 1` the code waits 1 and records the pre-wait timestamp 1 where
the claim records the post-wait time 2; with `now = 2` the computed
wait is 0, so the code skips the mid-call eviction and keeps both
entries where the claim evicts the oldest. -/
theorem acquire_claim_counterexample :
    acquire 1 2 1 [0] ≠ acquireClaim 1 2 1 [0] ∧
    acquire 1 2 2 [0] ≠ acquireClaim 1 2 2 [0] := by
  have h1 : acquire 1 2 1 [0] = ([1], 1) := by
    norm_num [acquire, List.dropWhile]
  have h2 : acquireClaim 1 2 1 [0] = ([2], 1) := by
    norm_num [acquireClaim, List.filter]
  have h3 : acquire 1 2 2 [0] = ([0, 2], 0) := by
    norm_num [acquire, List.dropWhile]
  have h4 : acquireClaim 1 2 2 [0] = ([2], 0) := by
    norm_num [acquireClaim, List.filter]
  rw [h1, h2, h3, h4]
  refine ⟨fun hcon => ?_, fun hcon => ?_⟩
  · have := congrArg (fun pr => pr.1) hcon
    simp at this
  · have := congrArg (fun pr => pr.1.length) hcon
    simp at this

/-- C6 amended: on a sorted window within capacity, `acquire` follows
the claimed steps with two corrections: the recorded timestamp is the
one observed at entry (before any wait) and the post-wait eviction
happens only when the computed wait is positive. -/
theorem acquire_follows_amended (N : Nat) (W now : ℚ) (reqs : List ℚ)
    (hN : 1 ≤ N) (hs : reqs.Sorted (· ≤ ·)) (hlen : reqs.length ≤ N) :
    acquire N W now reqs = acquireAmended N W now reqs := by
  unfold acquire acquireAmended
  rw [sorted_dropWhile_eq_filter (now - W) reqs hs]
  have hle : (reqs.filter (fun t => decide (now - W ≤ t))).length ≤ N :=
    le_trans (List.length_filter_le _ _) hlen
  by_cases h : N ≤ (reqs.filter (fun t => decide (now - W ≤ t))).length
  · have heq : (reqs.filter (fun t => decide (now - W ≤ t))).length = N :=
      le_antisymm hle h
    simp only [heq, le_refl, eq_self_iff_true, if_true]
  · have hne : ¬ (reqs.filter (fun t => decide (now - W ≤ t))).length = N :=
      fun he => h (he ▸ le_refl N)
    simp only [h, hne, if_false]

/-- C6 amended witness: a concrete saturated sorted window. -/
theorem acquire_follows_amended_witness :
    (1 ≤ 1 ∧ ([(2 : ℚ)] : List ℚ).Sorted (· ≤ ·) ∧
      ([(2 : ℚ)] : List ℚ).length ≤ 1) ∧
    acquire 1 2 3 [2] = acquireAmended 1 2 3 [2] := by
  refine ⟨⟨le_refl 1, List.sorted_singleton _, by decide⟩, ?_⟩
  exact acquire_follows_amended 1 2 3 [2] (le_refl 1)
    (List.sorted_singleton _) (by decide)

/-- A sample oracle environment for the dispatch handler: translation
returns what the embedded translator computes for `M999`, the
transport succeeds, and every device write succeeds. -/
def pgEnvSample : PgEnv :=
  ⟨false, Except.ok (translate_gcode [] "M999"), Except.ok (Json.obj []),
    Except.ok "ok T:25.0 /0.0 B:24.0 /0.0", fun _ => Except.ok true⟩

/-- C1: the dispatch handler never propagates an exception.  First,
whenever the body raises, the top-level handler appends exactly one
final attempted `ok` write, whose own failure the bare `except`
swallows — the returned write log is total in every oracle
environment.  Second, a nonempty command that no special handler
accepts and that the translator (the embedded rule and passthrough
scan) translates to nothing is answered with exactly the bare `ok`
reply, provided the device write itself returns. -/
theorem process_gcode_never_raises :
    (∀ (env : PgEnv) (g : String) (e : String),
      (pyStripS g == "") = false →
      (process_inner env (pyStripS g)).2 = some e →
      process_gcode env g = (process_inner env (pyStripS g)).1.written ++ ["ok"]) ∧
    (∀ (env : PgEnv) (macros : List String) (g : String) (b : Bool),
      (pyStripS g == "") = false →
      pyStartsWith (pyUpperS (pyStripS g)) "M115" = false →
      pyStartsWith (pyUpperS (pyStripS g)) "M105" = false →
      env.translateRes = Except.ok (translate_gcode macros (pyStripS g)) →
      translate_gcode macros (pyStripS g) = none →
      env.writeRes 0 = Except.ok b →
      process_gcode env g = ["ok"]) := by
  constructor
  · intro env g e hne hinner
    unfold process_gcode
    rw [if_neg (by simp_all)]
    rw [show process_inner env (pyStripS g)
        = ((process_inner env (pyStripS g)).1, some e) from by
      rw [← hinner]]
    rfl
  · intro env macros g b hne h115 h105 htr hnone hw
    unfold process_gcode
    rw [if_neg (by simp_all)]
    have hinner : process_inner env (pyStripS g) = (⟨1, ["ok"]⟩, none) := by
      unfold process_inner
      rw [h115, h105]
      simp only [Bool.false_eq_true, if_false]
      rw [htr, hnone]
      simp only [doWrite, hw]
      simp
    rw [hinner]

/-- C1 witness: the unrecognized command `M999` — no special handler,
no rule, no passthrough — receives exactly the bare `ok`. -/
theorem process_gcode_never_raises_witness :
    translate_gcode [] (pyStripS "M999") = none ∧
    process_gcode pgEnvSample "M999" = ["ok"] := by
  refine ⟨by decide, ?_⟩
  exact process_gcode_never_raises.2 pgEnvSample [] "M999" true (by decide)
    (by decide) (by decide) rfl (by decide) rfl

end TftBridge
